import Mathlib

/-!
Shallow embedding of the Timelock-Algorand sealed-bid auction contract
(src/timelock_contracts.py, PyTeal) and verification of its specification.

Modelling conventions:
* Byte strings (addresses, hashes, box keys/values) are `List Nat`.
* TEAL uint64 values are `Nat`; the contract performs no arithmetic that can
  overflow 64 bits on the inputs it accepts, and all comparisons/divisions
  used are order/division facts valid for `Nat`.
* `Itob` is big-endian 8-byte encoding of a uint64.
* Each ABI method is a pure function from a transaction context and the
  application state to `Except Err …`.  A TEAL `Assert` failure aborts the
  whole (grouped) transaction, so a method that fails returns `.error e`
  and the caller's state is unchanged by construction (atomic rejection).
* Inner transactions (payments / asset transfers issued by the contract)
  are returned as an explicit list of `Transfer`s.
* `Sha256` and `Ed25519Verify_Bare` are AVM primitives external to this
  repository; they are modelled as an abstract `Crypto` record parameter.
* `App.box_put k v` on the AVM creates the box if absent and overwrites its
  contents if a box of the same length exists; since every stored box value
  here is an account address (all the same length), `box_put` is modelled
  as an unconditional insert-or-overwrite on the box map.
* Algorand default values: an unset global/local uint64 key reads as 0 and
  an unset bytes key reads as the empty byte string, which gives the
  initial `AppState` below.
-/

/-- Byte strings: addresses, hashes, box keys and values. -/
abbrev Bytes := List Nat

/-- Big-endian 8-byte encoding of a uint64 (TEAL `Itob`). -/
def itob (n : Nat) : Bytes :=
  [n / 2 ^ 56 % 256, n / 2 ^ 48 % 256, n / 2 ^ 40 % 256, n / 2 ^ 32 % 256,
   n / 2 ^ 24 % 256, n / 2 ^ 16 % 256, n / 2 ^ 8 % 256, n % 256]

/-- The version tag `Bytes("v:1")` used in the oracle message (ASCII). -/
def vTag : Bytes := [118, 58, 49]

/-- The KYC box key tag `Bytes("KYC:")` (ASCII). -/
def kycTag : Bytes := [75, 89, 67, 58]

/-- An inner transaction issued by the contract. -/
inductive Transfer where
  | pay (receiver : Bytes) (amount : Nat)
  | asset (asa : Nat) (receiver : Bytes) (amount : Nat)
  deriving Repr, DecidableEq

/-- Error outcomes; each TEAL `Assert` site is given the error name the
specification's taxonomy attaches to it (the compiled program itself only
rejects, without distinguishing codes). -/
inductive Err where
  | phaseViolation
  | alreadyCommitted
  | alreadyRevealed
  | alreadySettled
  | alreadyRefunded
  | duplicateCommitment
  | badAtt
  | commitmentMismatch
  | unknownCommitment
  | priceMismatch
  | noFallbackBidder
  | invalidSchedule
  | groupViolation
  | bidBelowMinimum
  | senderNotWinner
  | senderIsWinner
  | notRevealed
  | notSeller
  deriving Repr, DecidableEq

/-- Transaction type of the paired group transaction (`Gtxn[0]`). -/
inductive TxnTypeE where
  | payment
  | assetTransfer
  | other
  deriving Repr, DecidableEq

/-- Fields of the group transaction `Gtxn[0]` that the contract inspects. -/
structure GTxn0 where
  typeEnum : TxnTypeE
  receiver : Bytes
  amount : Nat
  xferAsset : Nat
  assetReceiver : Bytes
  assetAmount : Nat
  deriving Repr, DecidableEq

/-- Environment-attested facts about the current call: sender identity,
group shape, current round (clock), application id and escrow address. -/
structure TxnCtx where
  sender : Bytes
  groupSize : Nat
  gtxn0 : GTxn0
  round : Nat
  appId : Nat
  appAddr : Bytes
  deriving Repr, DecidableEq

/-- The AVM cryptographic primitives consumed (not implemented) by the
contract: `Sha256` and `Ed25519Verify_Bare (msg, sig, pk)`. -/
structure Crypto where
  sha256 : Bytes → Bytes
  ed25519 : Bytes → Bytes → Bytes → Bool

/-- Global state of the auction (keys SELLER … SETTLE_ROUND). -/
structure GlobalState where
  seller : Bytes
  asaQuote : Nat
  reserve : Nat
  minBid : Nat
  bond : Nat
  secondPrice : Nat
  commitEnd : Nat
  unlockSlack : Nat
  payWindow : Nat
  oraclePk : Bytes
  pHash : Bytes
  winner : Bytes
  winBid : Nat
  secondBid : Nat
  secondWinner : Bytes
  settled : Nat
  settleRound : Nat
  deriving Repr, DecidableEq

/-- Local (per-account) state of a bidder (keys COMMIT … REMAINING_BOND). -/
structure LocalState where
  commit : Bytes
  cCid : Bytes
  anonKey : Bytes
  bonded : Nat
  revealed : Nat
  bid : Nat
  refunded : Nat
  remainingBond : Nat
  deriving Repr, DecidableEq

/-- Full application state: globals, per-account locals, and box storage. -/
structure AppState where
  global : GlobalState
  locals : Bytes → LocalState
  boxes : Bytes → Option Bytes

/-- Default (unset) local state: uint64 keys read as 0, bytes keys as empty. -/
def initLocal : LocalState :=
  { commit := [], cCid := [], anonKey := [], bonded := 0, revealed := 0,
    bid := 0, refunded := 0, remainingBond := 0 }

/-- Default (unset) global state. -/
def initGlobal : GlobalState :=
  { seller := [], asaQuote := 0, reserve := 0, minBid := 0, bond := 0,
    secondPrice := 0, commitEnd := 0, unlockSlack := 0, payWindow := 0,
    oraclePk := [], pHash := [], winner := [], winBid := 0, secondBid := 0,
    secondWinner := [], settled := 0, settleRound := 0 }

/-- Application state right after deployment, before any method call. -/
def initApp : AppState :=
  { global := initGlobal, locals := fun _ => initLocal, boxes := fun _ => none }

/-- Update one account's local state. -/
def setLocal (st : AppState) (a : Bytes) (f : LocalState → LocalState) : AppState :=
  { st with locals := fun x => if x = a then f (st.locals x) else st.locals x }

/-- `create` method: writes the full parameter set and zeroed leaderboard,
then asserts `commit_end > Global.round()`.  Faithful to the source, it has
no not-yet-initialized guard and no creator check: it overwrites whatever
global state exists whenever the schedule assertion passes. -/
def create (ctx : TxnCtx) (st : AppState)
    (asaQuote reserve minBid bond secondPrice commitEnd unlockSlack payWindow : Nat)
    (oraclePk pHash : Bytes) : Except Err AppState :=
  let st1 : AppState :=
    { st with global :=
      { seller := ctx.sender, asaQuote := asaQuote, reserve := reserve,
        minBid := minBid, bond := bond, secondPrice := secondPrice,
        commitEnd := commitEnd, unlockSlack := unlockSlack,
        payWindow := payWindow, oraclePk := oraclePk, pHash := pHash,
        winner := [], winBid := 0, secondBid := 0, secondWinner := [],
        settled := 0, settleRound := 0 } }
  if ctx.round < commitEnd then .ok st1 else .error .invalidSchedule

/-- `commit` method: phase guard, bonded-payment group checks, one-commit-
per-account guard, then writes the bidder record and `box_put h sender`
(insert-or-overwrite, see module comment). -/
def commit (ctx : TxnCtx) (st : AppState) (h cCid anonKey : Bytes) :
    Except Err AppState :=
  if ctx.round < st.global.commitEnd then
    if ctx.groupSize = 2 then
      if ctx.gtxn0.typeEnum = TxnTypeE.payment then
        if ctx.gtxn0.receiver = ctx.appAddr then
          if ctx.gtxn0.amount = st.global.bond then
            if (st.locals ctx.sender).bonded = 0 then
              let st1 := setLocal st ctx.sender fun r =>
                { r with commit := h, cCid := cCid, anonKey := anonKey,
                         bonded := 1, revealed := 0, refunded := 0, bid := 0,
                         remainingBond := st.global.bond }
              .ok { st1 with
                    boxes := fun k => if k = h then some ctx.sender else st1.boxes k }
            else .error .alreadyCommitted
          else .error .groupViolation
        else .error .groupViolation
      else .error .groupViolation
    else .error .groupViolation
  else .error .phaseViolation

/-- Leaderboard update block of `reveal_for`: if the bid beats the current
winner, shift winner into second place and take the lead; else if it beats
the current second bid, replace second place only. -/
def leaderboardUpdate (st : AppState) (bidder : Bytes) (bid : Nat) : AppState :=
  if st.global.winBid < bid then
    { st with global :=
      { st.global with secondBid := st.global.winBid, secondWinner := st.global.winner,
                       winBid := bid, winner := bidder } }
  else if st.global.secondBid < bid then
    { st with global :=
      { st.global with secondBid := bid, secondWinner := bidder } }
  else st

/-- The canonical oracle message of `reveal_for`:
v:1 tag, app id, hybrid parameter, current round, parameter hash,
commit end, and commit end + unlock slack (all uint64s as `Itob`). -/
def oracleMsg (ctx : TxnCtx) (st : AppState) (hy : Bytes) : Bytes :=
  vTag ++ itob ctx.appId ++ hy ++ itob ctx.round ++ st.global.pHash ++
    itob st.global.commitEnd ++ itob (st.global.commitEnd + st.global.unlockSlack)

/-- Effect block of a successful `reveal_for` (everything after the asserts):
record the reveal, update the leaderboard, then either hold the full
remaining bond (self-reveal) or pay `remaining*70/100` to the caller and
keep `remaining*30/100` for the bidder (third-party reveal). -/
def revealEffect (ctx : TxnCtx) (st : AppState) (bidder : Bytes) (bid : Nat) :
    AppState × List Transfer :=
  let st1 := setLocal st bidder fun r => { r with revealed := 1, bid := bid }
  let st2 := leaderboardUpdate st1 bidder bid
  let bondAmount := (st2.locals bidder).remainingBond
  if ctx.sender = bidder then
    (setLocal st2 bidder (fun r => { r with remainingBond := bondAmount }), [])
  else
    let revealerAmount := bondAmount * 70 / 100
    let bidderAmount := bondAmount * 30 / 100
    (setLocal st2 bidder (fun r => { r with remainingBond := bidderAmount }),
     [Transfer.pay ctx.sender revealerAmount])

/-- `reveal_for` method: phase guards, 64-byte attestation, Ed25519 check of
the canonical message, commitment-box lookup, SHA-256 commitment check,
one-reveal guard, minimum-bid guard; then `revealEffect`. -/
def reveal_for (cr : Crypto) (ctx : TxnCtx) (st : AppState)
    (commitId : Bytes) (bid : Nat) (salt hy att : Bytes) :
    Except Err (AppState × List Transfer) :=
  if st.global.commitEnd ≤ ctx.round then
    if ctx.round < st.global.commitEnd + st.global.unlockSlack then
      if att.length = 64 then
        if cr.ed25519 (oracleMsg ctx st hy) att st.global.oraclePk then
          match st.boxes commitId with
          | none => .error .unknownCommitment
          | some bidder =>
            if cr.sha256 (itob bid ++ salt ++ (st.locals bidder).anonKey ++ itob ctx.appId)
                = (st.locals bidder).commit then
              if (st.locals bidder).revealed = 0 then
                if st.global.minBid ≤ bid then
                  .ok (revealEffect ctx st bidder bid)
                else .error .bidBelowMinimum
              else .error .alreadyRevealed
            else .error .commitmentMismatch
        else .error .badAtt
      else .error .badAtt
    else .error .phaseViolation
  else .error .phaseViolation

/-- `settle` method: after the reveal window and only once; both branches of
the source's winner/reserve conditional write the identical settlement, so
settlement is unconditional on the leaderboard. -/
def settle (ctx : TxnCtx) (st : AppState) : Except Err AppState :=
  if st.global.commitEnd + st.global.unlockSlack ≤ ctx.round then
    if st.global.settled = 0 then
      if st.global.winner ≠ ([] : Bytes) ∧ st.global.reserve ≤ st.global.winBid then
        .ok { st with global :=
              { st.global with settled := 1, settleRound := ctx.round } }
      else
        .ok { st with global :=
              { st.global with settled := 1, settleRound := ctx.round } }
    else .error .alreadySettled
  else .error .phaseViolation

/-- Clearing price computed by `finalize_win` (its `expected_price` scratch
var): the second-highest bid under the second-price rule, the winning bid
otherwise, floored at the reserve. -/
def expectedPrice (g : GlobalState) : Nat :=
  if g.secondPrice = 1 then
    if g.reserve < g.secondBid then g.secondBid else g.reserve
  else
    if g.reserve < g.winBid then g.winBid else g.reserve

/-- `finalize_win` method: settled, caller is winner, inside the pay window,
paired asset transfer of exactly `price`, price equals the clearing price;
then forwards the price to the seller and refunds any remaining bond. -/
def finalize_win (ctx : TxnCtx) (st : AppState) (price : Nat) :
    Except Err (AppState × List Transfer) :=
  if st.global.settled = 1 then
    if ctx.sender = st.global.winner then
      if ctx.round ≤ st.global.settleRound + st.global.payWindow then
        if ctx.groupSize = 2 then
          if ctx.gtxn0.typeEnum = TxnTypeE.assetTransfer then
            if ctx.gtxn0.xferAsset = st.global.asaQuote then
              if ctx.gtxn0.assetReceiver = ctx.appAddr then
                if ctx.gtxn0.assetAmount = price then
                  if price = expectedPrice st.global then
                    if 0 < (st.locals ctx.sender).remainingBond then
                      .ok (setLocal st ctx.sender
                             (fun r => { r with remainingBond := 0 }),
                           [Transfer.asset st.global.asaQuote st.global.seller price,
                            Transfer.pay ctx.sender (st.locals ctx.sender).remainingBond])
                    else
                      .ok (st,
                           [Transfer.asset st.global.asaQuote st.global.seller price])
                  else .error .priceMismatch
                else .error .groupViolation
              else .error .groupViolation
            else .error .groupViolation
          else .error .groupViolation
        else .error .groupViolation
      else .error .phaseViolation
    else .error .senderNotWinner
  else .error .phaseViolation

/-- `promote_next` method: settled, past the pay window, a fallback exists;
slashes the expired winner's remaining bond to the seller and promotes the
runner-up, restarting the pay window. -/
def promote_next (ctx : TxnCtx) (st : AppState) :
    Except Err (AppState × List Transfer) :=
  if st.global.settled = 1 then
    if st.global.settleRound + st.global.payWindow < ctx.round then
      if st.global.secondWinner ≠ ([] : Bytes) then
        if 0 < (st.locals st.global.winner).remainingBond then
          .ok ({ (setLocal st st.global.winner
                    fun r => { r with remainingBond := 0 }) with global :=
                 { st.global with
                   winner := st.global.secondWinner,
                   winBid := st.global.secondBid,
                   secondWinner := [], secondBid := 0,
                   settleRound := ctx.round } },
               [Transfer.pay st.global.seller
                  (st.locals st.global.winner).remainingBond])
        else
          .ok ({ st with global :=
                 { st.global with
                   winner := st.global.secondWinner,
                   winBid := st.global.secondBid,
                   secondWinner := [], secondBid := 0,
                   settleRound := ctx.round } },
               [])
      else .error .noFallbackBidder
    else .error .phaseViolation
  else .error .phaseViolation

/-- `claim_refund` method: settled, caller revealed, caller is not the
winner, not refunded yet; pays out any remaining bond and marks refunded. -/
def claim_refund (ctx : TxnCtx) (st : AppState) :
    Except Err (AppState × List Transfer) :=
  if st.global.settled = 1 then
    if (st.locals ctx.sender).revealed = 1 then
      if ctx.sender ≠ st.global.winner then
        if (st.locals ctx.sender).refunded = 0 then
          if 0 < (st.locals ctx.sender).remainingBond then
            .ok (setLocal st ctx.sender
                   (fun r => { r with remainingBond := 0, refunded := 1 }),
                 [Transfer.pay ctx.sender (st.locals ctx.sender).remainingBond])
          else
            .ok (setLocal st ctx.sender (fun r => { r with refunded := 1 }), [])
        else .error .alreadyRefunded
      else .error .senderIsWinner
    else .error .notRevealed
  else .error .phaseViolation

/-- `set_kyc` method: seller only, during the commit phase; writes the
verified flag into the KYC box. -/
def set_kyc (ctx : TxnCtx) (st : AppState) (addr : Bytes) (value : Nat) :
    Except Err AppState :=
  if ctx.sender = st.global.seller then
    if ctx.round < st.global.commitEnd then
      .ok { st with boxes := fun k =>
              if k = kycTag ++ addr then some (itob value) else st.boxes k }
    else .error .phaseViolation
  else .error .notSeller

/-- ABI `update` method: asserts the caller is the seller, then approves. -/
def update (ctx : TxnCtx) (st : AppState) : Except Err Unit :=
  if ctx.sender = st.global.seller then .ok () else .error .notSeller

/-- ABI `delete` method: asserts the caller is the seller, then approves. -/
def delete (ctx : TxnCtx) (st : AppState) : Except Err Unit :=
  if ctx.sender = st.global.seller then .ok () else .error .notSeller

/-- On-complete action of a bare (non-ABI) application call. -/
inductive OnCompleteE where
  | noOp
  | updateApplication
  | deleteApplication
  | closeOut
  | optIn
  | clearState
  deriving Repr, DecidableEq

/-- Bare-call dispatch of the router (`BareCallActions` in `build_router`):
`no_op` is `create_only(Approve())`, `update_application`,
`delete_application`, `close_out` and `opt_in` are `call_only(Approve())`,
and `clear_state` is `never()`.  The context and state arguments reflect
that every approved branch is a plain `Approve()` that inspects neither. -/
def bareCall (isCreate : Bool) (oc : OnCompleteE) (ctx : TxnCtx)
    (st : AppState) : Bool :=
  match oc with
  | .noOp => isCreate
  | .updateApplication => !isCreate
  | .deleteApplication => !isCreate
  | .closeOut => !isCreate
  | .optIn => !isCreate
  | .clearState => false

/-- One auction method invocation (the argument vector of a call). -/
inductive Call where
  | create (asaQuote reserve minBid bond secondPrice commitEnd unlockSlack payWindow : Nat)
      (oraclePk pHash : Bytes)
  | commit (h cCid anonKey : Bytes)
  | revealFor (commitId : Bytes) (bid : Nat) (salt hy att : Bytes)
  | settle
  | finalizeWin (price : Nat)
  | promoteNext
  | claimRefund
  | setKyc (addr : Bytes) (value : Nat)

/-- Whether a call is a `create` (re-)initialization call. -/
def Call.isCreate : Call → Bool
  | .create .. => true
  | _ => false

/-- Sum of the plain-payment amounts in a transfer list (asset transfers of
the quote asset are the winner's own purchase payment, not bond money). -/
def paySum : List Transfer → Nat
  | [] => 0
  | Transfer.pay _ n :: ts => n + paySum ts
  | Transfer.asset _ _ _ :: ts => paySum ts

/-- Trace state: the application state plus ghost accounting used to state
the specification's escrow invariants — the last clock value seen, the bond
amount recorded for each bidder at commit time, and the cumulative amount
paid out of each bidder's bond (third-party bounty, refund, slash). -/
structure Sys where
  app : AppState
  lastRound : Nat
  bondOf : Bytes → Nat
  paidFor : Bytes → Nat

/-- Trace state at deployment. -/
def initSys : Sys :=
  { app := initApp, lastRound := 0, bondOf := fun _ => 0, paidFor := fun _ => 0 }

/-- One step of the auction state machine: dispatch the call, thread the
application state, and attribute every bond-funded payment to the bidder
whose bond it came from (the box-recorded bidder for a reveal bounty, the
caller for a refund, the pre-state winner for a slash). -/
def step (cr : Crypto) (c : Call) (ctx : TxnCtx) (s : Sys) : Except Err Sys :=
  match c with
  | .create a r m b sp ce us pw opk ph =>
      (create ctx s.app a r m b sp ce us pw opk ph).map fun st =>
        { s with app := st, lastRound := ctx.round }
  | .commit h cc ak =>
      (commit ctx s.app h cc ak).map fun st =>
        { s with app := st, lastRound := ctx.round,
                 bondOf := fun x =>
                   if x = ctx.sender then s.app.global.bond else s.bondOf x }
  | .revealFor cid bid salt hy att =>
      (reveal_for cr ctx s.app cid bid salt hy att).map fun p =>
        { s with app := p.1, lastRound := ctx.round,
                 paidFor := fun x =>
                   if some x = s.app.boxes cid then s.paidFor x + paySum p.2
                   else s.paidFor x }
  | .settle =>
      (settle ctx s.app).map fun st =>
        { s with app := st, lastRound := ctx.round }
  | .finalizeWin price =>
      (finalize_win ctx s.app price).map fun p =>
        { s with app := p.1, lastRound := ctx.round,
                 paidFor := fun x =>
                   if x = ctx.sender then s.paidFor x + paySum p.2
                   else s.paidFor x }
  | .promoteNext =>
      (promote_next ctx s.app).map fun p =>
        { s with app := p.1, lastRound := ctx.round,
                 paidFor := fun x =>
                   if x = s.app.global.winner then s.paidFor x + paySum p.2
                   else s.paidFor x }
  | .claimRefund =>
      (claim_refund ctx s.app).map fun p =>
        { s with app := p.1, lastRound := ctx.round,
                 paidFor := fun x =>
                   if x = ctx.sender then s.paidFor x + paySum p.2
                   else s.paidFor x }
  | .setKyc a v =>
      (set_kyc ctx s.app a v).map fun st =>
        { s with app := st, lastRound := ctx.round }

/-- Reachability: states produced from deployment by any sequence of
successful calls, under the ledger's guarantee that the clock (round) is
monotonically non-decreasing across calls. -/
inductive Reachable (cr : Crypto) : Sys → Prop
  | init : Reachable cr initSys
  | next {s s' : Sys} {c : Call} {ctx : TxnCtx} :
      Reachable cr s → s.lastRound ≤ ctx.round →
      step cr c ctx s = .ok s' → Reachable cr s'

/-! ### Inversion lemmas for the operations -/

/-- Bounds for the integer 70/30 split: the two floors sum to the original
amount minus at most one unit of rounding residue. -/
theorem bounty_split_bounds (r : Nat) :
    r * 70 / 100 + r * 30 / 100 ≤ r ∧ r ≤ r * 70 / 100 + r * 30 / 100 + 1 := by
  have h7 := Nat.div_add_mod (r * 70) 100
  have h3 := Nat.div_add_mod (r * 30) 100
  have m7 : r * 70 % 100 < 100 := Nat.mod_lt _ (by norm_num)
  have m3 : r * 30 % 100 < 100 := Nat.mod_lt _ (by norm_num)
  omega

theorem create_ok_iff {ctx : TxnCtx} {st st' : AppState}
    {asaQuote reserve minBid bond secondPrice commitEnd unlockSlack payWindow : Nat}
    {oraclePk pHash : Bytes} :
    create ctx st asaQuote reserve minBid bond secondPrice commitEnd unlockSlack
        payWindow oraclePk pHash = .ok st' ↔
    ctx.round < commitEnd ∧
    st' = { st with global :=
      { seller := ctx.sender, asaQuote := asaQuote, reserve := reserve,
        minBid := minBid, bond := bond, secondPrice := secondPrice,
        commitEnd := commitEnd, unlockSlack := unlockSlack,
        payWindow := payWindow, oraclePk := oraclePk, pHash := pHash,
        winner := [], winBid := 0, secondBid := 0, secondWinner := [],
        settled := 0, settleRound := 0 } } := by
  unfold create
  split_ifs with h1 <;> simp [h1, eq_comm]

theorem commit_ok_iff {ctx : TxnCtx} {st st' : AppState} {h cCid anonKey : Bytes} :
    commit ctx st h cCid anonKey = .ok st' ↔
    ctx.round < st.global.commitEnd ∧
    ctx.groupSize = 2 ∧
    ctx.gtxn0.typeEnum = TxnTypeE.payment ∧
    ctx.gtxn0.receiver = ctx.appAddr ∧
    ctx.gtxn0.amount = st.global.bond ∧
    (st.locals ctx.sender).bonded = 0 ∧
    st' = (let st1 := setLocal st ctx.sender fun r =>
             { r with commit := h, cCid := cCid, anonKey := anonKey,
                      bonded := 1, revealed := 0, refunded := 0, bid := 0,
                      remainingBond := st.global.bond }
           { st1 with boxes := fun k =>
               if k = h then some ctx.sender else st1.boxes k }) := by
  unfold commit
  split_ifs with h1 h2 h3 h4 h5 h6 <;> simp_all [eq_comm]

theorem reveal_for_ok {cr : Crypto} {ctx : TxnCtx} {st : AppState}
    {commitId : Bytes} {bid : Nat} {salt hy att : Bytes}
    {p : AppState × List Transfer}
    (hok : reveal_for cr ctx st commitId bid salt hy att = .ok p) :
    st.global.commitEnd ≤ ctx.round ∧
    ctx.round < st.global.commitEnd + st.global.unlockSlack ∧
    att.length = 64 ∧
    cr.ed25519 (oracleMsg ctx st hy) att st.global.oraclePk = true ∧
    ∃ bidder, st.boxes commitId = some bidder ∧
      cr.sha256 (itob bid ++ salt ++ (st.locals bidder).anonKey ++ itob ctx.appId)
        = (st.locals bidder).commit ∧
      (st.locals bidder).revealed = 0 ∧
      st.global.minBid ≤ bid ∧
      p = revealEffect ctx st bidder bid := by
  unfold reveal_for at hok
  cases hbox : st.boxes commitId with
  | none =>
    simp only [hbox] at hok
    split_ifs at hok <;> exact Except.noConfusion hok
  | some bidder =>
    simp only [hbox] at hok
    split_ifs at hok with h1 h2 h3 h4 h5 h6 h7
    all_goals try exact Except.noConfusion hok
    exact ⟨h1, h2, h3, h4, bidder, rfl, h5, h6, h7, (Except.ok.inj hok).symm⟩

theorem settle_ok_iff {ctx : TxnCtx} {st st' : AppState} :
    settle ctx st = .ok st' ↔
    st.global.commitEnd + st.global.unlockSlack ≤ ctx.round ∧
    st.global.settled = 0 ∧
    st' = { st with global :=
        { st.global with settled := 1, settleRound := ctx.round } } := by
  unfold settle
  split_ifs with h1 h2 h3 <;> simp_all [eq_comm]

set_option maxHeartbeats 1000000 in
theorem finalize_win_ok {ctx : TxnCtx} {st : AppState} {price : Nat}
    {p : AppState × List Transfer} (hok : finalize_win ctx st price = .ok p) :
    st.global.settled = 1 ∧
    ctx.sender = st.global.winner ∧
    ctx.round ≤ st.global.settleRound + st.global.payWindow ∧
    price = expectedPrice st.global ∧
    p = (if 0 < (st.locals ctx.sender).remainingBond then
           (setLocal st ctx.sender (fun r => { r with remainingBond := 0 }),
            [Transfer.asset st.global.asaQuote st.global.seller price,
             Transfer.pay ctx.sender (st.locals ctx.sender).remainingBond])
         else (st, [Transfer.asset st.global.asaQuote st.global.seller price])) := by
  unfold finalize_win at hok
  split_ifs at hok with h1 h2 h3 h4 h5 h6 h7 h8 h9 h10
  all_goals try contradiction
  · exact ⟨h1, h2, h3, h9, by rw [if_pos h10]; exact (Except.ok.inj hok).symm⟩
  · exact ⟨h1, h2, h3, h9, by rw [if_neg h10]; exact (Except.ok.inj hok).symm⟩

theorem promote_next_ok {ctx : TxnCtx} {st : AppState}
    {p : AppState × List Transfer} (hok : promote_next ctx st = .ok p) :
    st.global.settled = 1 ∧
    st.global.settleRound + st.global.payWindow < ctx.round ∧
    st.global.secondWinner ≠ ([] : Bytes) ∧
    p = (if 0 < (st.locals st.global.winner).remainingBond then
           ({ (setLocal st st.global.winner
                 fun r => { r with remainingBond := 0 }) with global :=
              { st.global with
                winner := st.global.secondWinner,
                winBid := st.global.secondBid,
                secondWinner := [], secondBid := 0,
                settleRound := ctx.round } },
            [Transfer.pay st.global.seller
               (st.locals st.global.winner).remainingBond])
         else
           ({ st with global :=
              { st.global with
                winner := st.global.secondWinner,
                winBid := st.global.secondBid,
                secondWinner := [], secondBid := 0,
                settleRound := ctx.round } },
            ([] : List Transfer))) := by
  unfold promote_next at hok
  split_ifs at hok with h1 h2 h3 h4
  all_goals try exact Except.noConfusion hok
  · exact ⟨h1, h2, h3, by rw [if_pos h4]; exact (Except.ok.inj hok).symm⟩
  · exact ⟨h1, h2, h3, by rw [if_neg h4]; exact (Except.ok.inj hok).symm⟩

theorem claim_refund_ok {ctx : TxnCtx} {st : AppState}
    {p : AppState × List Transfer} (hok : claim_refund ctx st = .ok p) :
    st.global.settled = 1 ∧
    (st.locals ctx.sender).revealed = 1 ∧
    ctx.sender ≠ st.global.winner ∧
    (st.locals ctx.sender).refunded = 0 ∧
    p = (if 0 < (st.locals ctx.sender).remainingBond then
           (setLocal st ctx.sender
              (fun r => { r with remainingBond := 0, refunded := 1 }),
            [Transfer.pay ctx.sender (st.locals ctx.sender).remainingBond])
         else
           (setLocal st ctx.sender (fun r => { r with refunded := 1 }),
            ([] : List Transfer))) := by
  unfold claim_refund at hok
  split_ifs at hok with h1 h2 h3 h4 h5
  all_goals try exact Except.noConfusion hok
  · exact ⟨h1, h2, h3, h4, by rw [if_pos h5]; exact (Except.ok.inj hok).symm⟩
  · exact ⟨h1, h2, h3, h4, by rw [if_neg h5]; exact (Except.ok.inj hok).symm⟩

theorem set_kyc_ok {ctx : TxnCtx} {st st' : AppState} {addr : Bytes} {value : Nat}
    (hok : set_kyc ctx st addr value = .ok st') :
    ctx.sender = st.global.seller ∧
    ctx.round < st.global.commitEnd ∧
    st' = { st with boxes := fun k =>
             if k = kycTag ++ addr then some (itob value) else st.boxes k } := by
  unfold set_kyc at hok
  split_ifs at hok with h1 h2
  all_goals try exact Except.noConfusion hok
  exact ⟨h1, h2, (Except.ok.inj hok).symm⟩

/-! ### Projection lemmas for the effect helpers -/

theorem setLocal_locals (st : AppState) (a : Bytes) (f : LocalState → LocalState)
    (x : Bytes) :
    (setLocal st a f).locals x = if x = a then f (st.locals x) else st.locals x := rfl

theorem setLocal_global (st : AppState) (a : Bytes) (f : LocalState → LocalState) :
    (setLocal st a f).global = st.global := rfl

theorem setLocal_boxes (st : AppState) (a : Bytes) (f : LocalState → LocalState) :
    (setLocal st a f).boxes = st.boxes := rfl

theorem leaderboardUpdate_locals (st : AppState) (b : Bytes) (bid : Nat) :
    (leaderboardUpdate st b bid).locals = st.locals := by
  unfold leaderboardUpdate; split_ifs <;> rfl

theorem leaderboardUpdate_boxes (st : AppState) (b : Bytes) (bid : Nat) :
    (leaderboardUpdate st b bid).boxes = st.boxes := by
  unfold leaderboardUpdate; split_ifs <;> rfl

theorem leaderboardUpdate_settled (st : AppState) (b : Bytes) (bid : Nat) :
    (leaderboardUpdate st b bid).global.settled = st.global.settled := by
  unfold leaderboardUpdate; split_ifs <;> rfl

theorem leaderboardUpdate_commitEnd (st : AppState) (b : Bytes) (bid : Nat) :
    (leaderboardUpdate st b bid).global.commitEnd = st.global.commitEnd := by
  unfold leaderboardUpdate; split_ifs <;> rfl

theorem leaderboardUpdate_unlockSlack (st : AppState) (b : Bytes) (bid : Nat) :
    (leaderboardUpdate st b bid).global.unlockSlack = st.global.unlockSlack := by
  unfold leaderboardUpdate; split_ifs <;> rfl

/-- The leaderboard step keeps `second_bid ≤ win_bid` once it holds. -/
theorem leaderboardUpdate_lead (st : AppState) (b : Bytes) (bid : Nat)
    (h : st.global.secondBid ≤ st.global.winBid) :
    (leaderboardUpdate st b bid).global.secondBid ≤
      (leaderboardUpdate st b bid).global.winBid := by
  unfold leaderboardUpdate
  split_ifs with h1 h2
  · show st.global.winBid ≤ bid
    omega
  · show bid ≤ st.global.winBid
    omega
  · exact h

theorem revealEffect_boxes (ctx : TxnCtx) (st : AppState) (bidder : Bytes)
    (bid : Nat) : (revealEffect ctx st bidder bid).1.boxes = st.boxes := by
  unfold revealEffect
  split_ifs <;>
    simp [setLocal_boxes, leaderboardUpdate_boxes]

theorem revealEffect_global (ctx : TxnCtx) (st : AppState) (bidder : Bytes)
    (bid : Nat) :
    (revealEffect ctx st bidder bid).1.global =
      (leaderboardUpdate
        (setLocal st bidder fun r => { r with revealed := 1, bid := bid })
        bidder bid).global := by
  unfold revealEffect
  split_ifs <;> simp [setLocal_global]

theorem revealEffect_locals_other (ctx : TxnCtx) (st : AppState) (bidder : Bytes)
    (bid : Nat) (x : Bytes) (hx : x ≠ bidder) :
    (revealEffect ctx st bidder bid).1.locals x = st.locals x := by
  unfold revealEffect
  split_ifs <;>
    simp [setLocal_locals, leaderboardUpdate_locals, hx]

theorem revealEffect_locals_self (ctx : TxnCtx) (st : AppState) (bidder : Bytes)
    (bid : Nat) (h : ctx.sender = bidder) :
    (revealEffect ctx st bidder bid).1.locals bidder =
      { st.locals bidder with revealed := 1, bid := bid } := by
  unfold revealEffect
  rw [if_pos h]
  simp [setLocal_locals, leaderboardUpdate_locals]

theorem revealEffect_locals_third (ctx : TxnCtx) (st : AppState) (bidder : Bytes)
    (bid : Nat) (h : ¬ ctx.sender = bidder) :
    (revealEffect ctx st bidder bid).1.locals bidder =
      { st.locals bidder with
        revealed := 1, bid := bid,
        remainingBond := (st.locals bidder).remainingBond * 30 / 100 } := by
  unfold revealEffect
  rw [if_neg h]
  simp [setLocal_locals, leaderboardUpdate_locals]

theorem revealEffect_snd_self (ctx : TxnCtx) (st : AppState) (bidder : Bytes)
    (bid : Nat) (h : ctx.sender = bidder) :
    (revealEffect ctx st bidder bid).2 = [] := by
  unfold revealEffect
  rw [if_pos h]

theorem revealEffect_snd_third (ctx : TxnCtx) (st : AppState) (bidder : Bytes)
    (bid : Nat) (h : ¬ ctx.sender = bidder) :
    (revealEffect ctx st bidder bid).2 =
      [Transfer.pay ctx.sender ((st.locals bidder).remainingBond * 70 / 100)] := by
  unfold revealEffect
  rw [if_neg h]
  simp [setLocal_locals, leaderboardUpdate_locals]

/-! ### The inductive system invariant -/

/-- Inductive invariant of the auction state machine.  The escrow clauses
say: while a bidder is unrevealed their bond is intact (`remaining_bond`
plus payouts equals the bond recorded at commit time), and after the
(unique) reveal at most one unit has been lost to the 70/30 rounding. -/
structure SysInv (s : Sys) : Prop where
  bondedLe : ∀ a, (s.app.locals a).bonded ≤ 1
  revealedLe : ∀ a, (s.app.locals a).revealed ≤ 1
  unbonded : ∀ a, (s.app.locals a).bonded = 0 →
      s.paidFor a = 0 ∧ (s.app.locals a).remainingBond = 0
  preReveal : ∀ a, (s.app.locals a).bonded = 1 → (s.app.locals a).revealed = 0 →
      (s.app.locals a).remainingBond + s.paidFor a = s.bondOf a
  postReveal : ∀ a, (s.app.locals a).bonded = 1 → (s.app.locals a).revealed = 1 →
      s.bondOf a ≤ (s.app.locals a).remainingBond + s.paidFor a + 1 ∧
      (s.app.locals a).remainingBond + s.paidFor a ≤ s.bondOf a
  lead : s.app.global.secondBid ≤ s.app.global.winBid
  settledRound : s.app.global.settled = 1 →
      s.app.global.commitEnd + s.app.global.unlockSlack ≤ s.lastRound

theorem sysInv_init : SysInv initSys := by
  refine ⟨?_, ?_, ?_, ?_, ?_, ?_, ?_⟩ <;>
    simp [initSys, initApp, initLocal, initGlobal]

theorem invCreate {ctx : TxnCtx} {s : Sys} {st2 : AppState}
    {a r m b sp ce us pw : Nat} {opk ph : Bytes}
    (hok : create ctx s.app a r m b sp ce us pw opk ph = .ok st2)
    (hinv : SysInv s) :
    SysInv { s with app := st2, lastRound := ctx.round } := by
  obtain ⟨h1, hst2⟩ := create_ok_iff.mp hok
  subst hst2
  obtain ⟨bLe, rLe, unb, pre, post, lead, sr⟩ := hinv
  refine ⟨bLe, rLe, unb, pre, post, Nat.le_refl 0, ?_⟩
  intro hs
  simp at hs

theorem invSettle {ctx : TxnCtx} {s : Sys} {st2 : AppState}
    (hok : settle ctx s.app = .ok st2) (hinv : SysInv s) :
    SysInv { s with app := st2, lastRound := ctx.round } := by
  obtain ⟨hr, hs0, hst2⟩ := settle_ok_iff.mp hok
  subst hst2
  obtain ⟨bLe, rLe, unb, pre, post, lead, sr⟩ := hinv
  exact ⟨bLe, rLe, unb, pre, post, lead, fun _ => hr⟩

theorem invSetKyc {ctx : TxnCtx} {s : Sys} {st2 : AppState} {addr : Bytes}
    {v : Nat} (hle : s.lastRound ≤ ctx.round)
    (hok : set_kyc ctx s.app addr v = .ok st2) (hinv : SysInv s) :
    SysInv { s with app := st2, lastRound := ctx.round } := by
  obtain ⟨h1, h2, hst2⟩ := set_kyc_ok hok
  subst hst2
  obtain ⟨bLe, rLe, unb, pre, post, lead, sr⟩ := hinv
  exact ⟨bLe, rLe, unb, pre, post, lead, fun hs => le_trans (sr hs) hle⟩

theorem invCommit {ctx : TxnCtx} {s : Sys} {st2 : AppState} {h cc ak : Bytes}
    (hle : s.lastRound ≤ ctx.round)
    (hok : commit ctx s.app h cc ak = .ok st2) (hinv : SysInv s) :
    SysInv { s with
             app := st2, lastRound := ctx.round,
             bondOf := fun x =>
               if x = ctx.sender then s.app.global.bond else s.bondOf x } := by
  obtain ⟨g1, g2, g3, g4, g5, g6, hst2⟩ := commit_ok_iff.mp hok
  subst hst2
  obtain ⟨bLe, rLe, unb, pre, post, lead, sr⟩ := hinv
  refine ⟨?_, ?_, ?_, ?_, ?_, lead, fun hs => le_trans (sr hs) hle⟩
  · intro a
    by_cases hax : a = ctx.sender
    · subst hax
      simp [setLocal_locals]
    · simp [setLocal_locals, hax]
      exact bLe a
  · intro a
    by_cases hax : a = ctx.sender
    · subst hax
      simp [setLocal_locals]
    · simp [setLocal_locals, hax]
      exact rLe a
  · intro a
    by_cases hax : a = ctx.sender
    · subst hax
      simp [setLocal_locals]
    · simp [setLocal_locals, hax]
      exact unb a
  · intro a
    by_cases hax : a = ctx.sender
    · subst hax
      simp [setLocal_locals]
      exact (unb ctx.sender g6).1
    · simp [setLocal_locals, hax]
      exact pre a
  · intro a
    by_cases hax : a = ctx.sender
    · subst hax
      simp [setLocal_locals]
    · simp [setLocal_locals, hax]
      exact post a

/-- Field-level description of the bidder records after `revealEffect`. -/
theorem revealEffect_locals_fields (ctx : TxnCtx) (st : AppState)
    (bidder : Bytes) (bid : Nat) (x : Bytes) :
    ((revealEffect ctx st bidder bid).1.locals x).bonded = (st.locals x).bonded ∧
    ((revealEffect ctx st bidder bid).1.locals x).refunded = (st.locals x).refunded ∧
    ((revealEffect ctx st bidder bid).1.locals x).revealed
      = (if x = bidder then 1 else (st.locals x).revealed) ∧
    ((revealEffect ctx st bidder bid).1.locals x).remainingBond
      = (if x = bidder ∧ ¬ ctx.sender = bidder
         then (st.locals x).remainingBond * 30 / 100
         else (st.locals x).remainingBond) := by
  by_cases hx : x = bidder
  · subst hx
    by_cases hs : ctx.sender = x
    · rw [revealEffect_locals_self _ _ _ _ hs]
      simp [hs]
    · rw [revealEffect_locals_third _ _ _ _ hs]
      simp [hs]
  · rw [revealEffect_locals_other _ _ _ _ _ hx]
    simp [hx]

/-- Amount paid out by `revealEffect`: nothing on self-reveal, the 70 percent
bounty on third-party reveal. -/
theorem revealEffect_paySum (ctx : TxnCtx) (st : AppState)
    (bidder : Bytes) (bid : Nat) :
    paySum (revealEffect ctx st bidder bid).2 =
      (if ctx.sender = bidder then 0
       else (st.locals bidder).remainingBond * 70 / 100) := by
  by_cases hs : ctx.sender = bidder
  · rw [revealEffect_snd_self _ _ _ _ hs]
    simp [hs, paySum]
  · rw [revealEffect_snd_third _ _ _ _ hs]
    simp [hs, paySum]

theorem invReveal {cr : Crypto} {ctx : TxnCtx} {s : Sys}
    {p : AppState × List Transfer} {cid : Bytes} {bid : Nat} {salt hy att : Bytes}
    (hle : s.lastRound ≤ ctx.round)
    (hok : reveal_for cr ctx s.app cid bid salt hy att = .ok p) (hinv : SysInv s) :
    SysInv { s with
             app := p.1, lastRound := ctx.round,
             paidFor := fun x =>
               if some x = s.app.boxes cid then s.paidFor x + paySum p.2
               else s.paidFor x } := by
  obtain ⟨h1, h2, h3, h4, bidder, hbox, hsha, hrev, hmin, hp⟩ := reveal_for_ok hok
  subst hp
  obtain ⟨bLe, rLe, unb, pre, post, lead, sr⟩ := hinv
  rw [hbox]
  refine ⟨?_, ?_, ?_, ?_, ?_, ?_, ?_⟩
  · intro a
    show ((revealEffect ctx s.app bidder bid).1.locals a).bonded ≤ 1
    rw [(revealEffect_locals_fields ctx s.app bidder bid a).1]
    exact bLe a
  · intro a
    show ((revealEffect ctx s.app bidder bid).1.locals a).revealed ≤ 1
    rw [(revealEffect_locals_fields ctx s.app bidder bid a).2.2.1]
    by_cases hx : a = bidder
    · simp [hx]
    · simp [hx]
      exact rLe a
  · intro a
    show ((revealEffect ctx s.app bidder bid).1.locals a).bonded = 0 → _ ∧ _
    rw [(revealEffect_locals_fields ctx s.app bidder bid a).1]
    intro hb0
    obtain ⟨hp0, hr0⟩ := unb a hb0
    constructor
    · show (if some a = some bidder then
              s.paidFor a + paySum (revealEffect ctx s.app bidder bid).2
            else s.paidFor a) = 0
      rw [revealEffect_paySum]
      by_cases hx : a = bidder
      · subst hx
        by_cases hs' : ctx.sender = a <;> simp [hs', hp0, hr0]
      · simp [hx, hp0]
    · show ((revealEffect ctx s.app bidder bid).1.locals a).remainingBond = 0
      rw [(revealEffect_locals_fields ctx s.app bidder bid a).2.2.2]
      by_cases hx : a = bidder
      · subst hx
        by_cases hs' : ctx.sender = a <;> simp [hs', hr0]
      · simp [hx, hr0]
  · intro a
    show ((revealEffect ctx s.app bidder bid).1.locals a).bonded = 1 →
         ((revealEffect ctx s.app bidder bid).1.locals a).revealed = 0 → _
    rw [(revealEffect_locals_fields ctx s.app bidder bid a).1,
        (revealEffect_locals_fields ctx s.app bidder bid a).2.2.1]
    intro hb1 hr0
    by_cases hx : a = bidder
    · rw [if_pos hx] at hr0
      exact absurd hr0 (by decide)
    · rw [if_neg hx] at hr0
      show ((revealEffect ctx s.app bidder bid).1.locals a).remainingBond +
             (if some a = some bidder then _ else s.paidFor a) = s.bondOf a
      rw [(revealEffect_locals_fields ctx s.app bidder bid a).2.2.2]
      simp only [Option.some.injEq, if_neg hx, hx, false_and, if_false]
      exact pre a hb1 hr0
  · intro a
    show ((revealEffect ctx s.app bidder bid).1.locals a).bonded = 1 →
         ((revealEffect ctx s.app bidder bid).1.locals a).revealed = 1 → _ ∧ _
    rw [(revealEffect_locals_fields ctx s.app bidder bid a).1,
        (revealEffect_locals_fields ctx s.app bidder bid a).2.2.1]
    intro hb1 hr1
    have hrB : ((revealEffect ctx s.app bidder bid).1.locals a).remainingBond
        = (if a = bidder ∧ ¬ ctx.sender = bidder
           then (s.app.locals a).remainingBond * 30 / 100
           else (s.app.locals a).remainingBond) :=
      (revealEffect_locals_fields ctx s.app bidder bid a).2.2.2
    by_cases hx : a = bidder
    · subst hx
      have hpre := pre a hb1 hrev
      by_cases hs' : ctx.sender = a
      · constructor
        · show s.bondOf a ≤
            ((revealEffect ctx s.app a bid).1.locals a).remainingBond +
            (if some a = some a then
               s.paidFor a + paySum (revealEffect ctx s.app a bid).2
             else s.paidFor a) + 1
          rw [hrB, revealEffect_paySum]
          simp [hs']
          omega
        · show ((revealEffect ctx s.app a bid).1.locals a).remainingBond +
            (if some a = some a then
               s.paidFor a + paySum (revealEffect ctx s.app a bid).2
             else s.paidFor a) ≤ s.bondOf a
          rw [hrB, revealEffect_paySum]
          simp [hs']
          omega
      · have hsplit := bounty_split_bounds (s.app.locals a).remainingBond
        constructor
        · show s.bondOf a ≤
            ((revealEffect ctx s.app a bid).1.locals a).remainingBond +
            (if some a = some a then
               s.paidFor a + paySum (revealEffect ctx s.app a bid).2
             else s.paidFor a) + 1
          rw [hrB, revealEffect_paySum]
          simp [hs']
          omega
        · show ((revealEffect ctx s.app a bid).1.locals a).remainingBond +
            (if some a = some a then
               s.paidFor a + paySum (revealEffect ctx s.app a bid).2
             else s.paidFor a) ≤ s.bondOf a
          rw [hrB, revealEffect_paySum]
          simp [hs']
          omega
    · rw [if_neg hx] at hr1
      have hpost := post a hb1 hr1
      constructor
      · show s.bondOf a ≤
          ((revealEffect ctx s.app bidder bid).1.locals a).remainingBond +
          (if some a = some bidder then
             s.paidFor a + paySum (revealEffect ctx s.app bidder bid).2
           else s.paidFor a) + 1
        rw [hrB]
        simp [hx]
        omega
      · show ((revealEffect ctx s.app bidder bid).1.locals a).remainingBond +
          (if some a = some bidder then
             s.paidFor a + paySum (revealEffect ctx s.app bidder bid).2
           else s.paidFor a) ≤ s.bondOf a
        rw [hrB]
        simp [hx]
        omega
  · show (revealEffect ctx s.app bidder bid).1.global.secondBid ≤
         (revealEffect ctx s.app bidder bid).1.global.winBid
    rw [revealEffect_global]
    refine leaderboardUpdate_lead _ _ _ ?_
    rw [setLocal_global]
    exact lead
  · show (revealEffect ctx s.app bidder bid).1.global.settled = 1 →
        (revealEffect ctx s.app bidder bid).1.global.commitEnd +
        (revealEffect ctx s.app bidder bid).1.global.unlockSlack ≤ ctx.round
    rw [revealEffect_global, leaderboardUpdate_settled, leaderboardUpdate_commitEnd,
        leaderboardUpdate_unlockSlack, setLocal_global]
    intro hs1
    exact le_trans (sr hs1) hle

theorem invFinalize {ctx : TxnCtx} {s : Sys} {price : Nat}
    {p : AppState × List Transfer}
    (hle : s.lastRound ≤ ctx.round)
    (hok : finalize_win ctx s.app price = .ok p) (hinv : SysInv s) :
    SysInv { s with
             app := p.1, lastRound := ctx.round,
             paidFor := fun x =>
               if x = ctx.sender then s.paidFor x + paySum p.2
               else s.paidFor x } := by
  obtain ⟨hs1, hw, hr, hpr, hp⟩ := finalize_win_ok hok
  obtain ⟨bLe, rLe, unb, pre, post, lead, sr⟩ := hinv
  by_cases hrb : 0 < (s.app.locals ctx.sender).remainingBond
  · rw [if_pos hrb] at hp
    subst hp
    refine ⟨?_, ?_, ?_, ?_, ?_, lead, fun hs => le_trans (sr hs) hle⟩
    · intro a
      by_cases hax : a = ctx.sender
      · subst hax
        simp [setLocal_locals]
        exact bLe ctx.sender
      · simp [setLocal_locals, hax]
        exact bLe a
    · intro a
      by_cases hax : a = ctx.sender
      · subst hax
        simp [setLocal_locals]
        exact rLe ctx.sender
      · simp [setLocal_locals, hax]
        exact rLe a
    · intro a
      by_cases hax : a = ctx.sender
      · subst hax
        simp [setLocal_locals, paySum]
        intro hb0
        have := unb ctx.sender hb0
        omega
      · simp [setLocal_locals, hax]
        exact unb a
    · intro a
      by_cases hax : a = ctx.sender
      · subst hax
        simp [setLocal_locals, paySum]
        intro hb1 hr0
        have := pre ctx.sender hb1 hr0
        omega
      · simp [setLocal_locals, hax]
        exact pre a
    · intro a
      by_cases hax : a = ctx.sender
      · subst hax
        simp [setLocal_locals, paySum]
        intro hb1 hr1
        have := post ctx.sender hb1 hr1
        omega
      · simp [setLocal_locals, hax]
        exact post a
  · rw [if_neg hrb] at hp
    subst hp
    refine ⟨bLe, rLe, ?_, ?_, ?_, lead, fun hs => le_trans (sr hs) hle⟩
    · intro a hb0
      have h0 := unb a hb0
      by_cases hax : a = ctx.sender
      · subst hax
        simp [paySum]
        omega
      · simp [hax]
        exact h0
    · intro a hb1 hr0
      have h0 := pre a hb1 hr0
      by_cases hax : a = ctx.sender
      · subst hax
        simp [paySum]
        omega
      · simp [hax]
        exact h0
    · intro a hb1 hr1
      have h0 := post a hb1 hr1
      by_cases hax : a = ctx.sender
      · subst hax
        simp [paySum]
        omega
      · simp [hax]
        exact h0

theorem invPromote {ctx : TxnCtx} {s : Sys} {p : AppState × List Transfer}
    (hle : s.lastRound ≤ ctx.round)
    (hok : promote_next ctx s.app = .ok p) (hinv : SysInv s) :
    SysInv { s with
             app := p.1, lastRound := ctx.round,
             paidFor := fun x =>
               if x = s.app.global.winner then s.paidFor x + paySum p.2
               else s.paidFor x } := by
  obtain ⟨hs1, hr, hsw, hp⟩ := promote_next_ok hok
  obtain ⟨bLe, rLe, unb, pre, post, lead, sr⟩ := hinv
  by_cases hrb : 0 < (s.app.locals s.app.global.winner).remainingBond
  · rw [if_pos hrb] at hp
    subst hp
    refine ⟨?_, ?_, ?_, ?_, ?_, Nat.zero_le _, fun hs => le_trans (sr hs) hle⟩
    · intro a
      by_cases hax : a = s.app.global.winner
      · subst hax
        simp [setLocal_locals]
        exact bLe s.app.global.winner
      · simp [setLocal_locals, hax]
        exact bLe a
    · intro a
      by_cases hax : a = s.app.global.winner
      · subst hax
        simp [setLocal_locals]
        exact rLe s.app.global.winner
      · simp [setLocal_locals, hax]
        exact rLe a
    · intro a
      by_cases hax : a = s.app.global.winner
      · subst hax
        simp [setLocal_locals, paySum]
        intro hb0
        have := unb s.app.global.winner hb0
        omega
      · simp [setLocal_locals, hax]
        exact unb a
    · intro a
      by_cases hax : a = s.app.global.winner
      · subst hax
        simp [setLocal_locals, paySum]
        intro hb1 hr0
        have := pre s.app.global.winner hb1 hr0
        omega
      · simp [setLocal_locals, hax]
        exact pre a
    · intro a
      by_cases hax : a = s.app.global.winner
      · subst hax
        simp [setLocal_locals, paySum]
        intro hb1 hr1
        have := post s.app.global.winner hb1 hr1
        omega
      · simp [setLocal_locals, hax]
        exact post a
  · rw [if_neg hrb] at hp
    subst hp
    refine ⟨bLe, rLe, ?_, ?_, ?_, Nat.zero_le _, fun hs => le_trans (sr hs) hle⟩
    · intro a hb0
      have h0 := unb a hb0
      by_cases hax : a = s.app.global.winner
      · subst hax
        simp [paySum]
        omega
      · simp [hax]
        exact h0
    · intro a hb1 hr0
      have h0 := pre a hb1 hr0
      by_cases hax : a = s.app.global.winner
      · subst hax
        simp [paySum]
        omega
      · simp [hax]
        exact h0
    · intro a hb1 hr1
      have h0 := post a hb1 hr1
      by_cases hax : a = s.app.global.winner
      · subst hax
        simp [paySum]
        omega
      · simp [hax]
        exact h0

theorem invClaim {ctx : TxnCtx} {s : Sys} {p : AppState × List Transfer}
    (hle : s.lastRound ≤ ctx.round)
    (hok : claim_refund ctx s.app = .ok p) (hinv : SysInv s) :
    SysInv { s with
             app := p.1, lastRound := ctx.round,
             paidFor := fun x =>
               if x = ctx.sender then s.paidFor x + paySum p.2
               else s.paidFor x } := by
  obtain ⟨hs1, hrev1, hnw, hrf, hp⟩ := claim_refund_ok hok
  obtain ⟨bLe, rLe, unb, pre, post, lead, sr⟩ := hinv
  by_cases hrb : 0 < (s.app.locals ctx.sender).remainingBond
  · rw [if_pos hrb] at hp
    subst hp
    refine ⟨?_, ?_, ?_, ?_, ?_, lead, fun hs => le_trans (sr hs) hle⟩
    · intro a
      by_cases hax : a = ctx.sender
      · subst hax
        simp [setLocal_locals]
        exact bLe ctx.sender
      · simp [setLocal_locals, hax]
        exact bLe a
    · intro a
      by_cases hax : a = ctx.sender
      · subst hax
        simp [setLocal_locals]
        exact rLe ctx.sender
      · simp [setLocal_locals, hax]
        exact rLe a
    · intro a
      by_cases hax : a = ctx.sender
      · subst hax
        simp [setLocal_locals, paySum]
        intro hb0
        have := unb ctx.sender hb0
        omega
      · simp [setLocal_locals, hax]
        exact unb a
    · intro a
      by_cases hax : a = ctx.sender
      · subst hax
        simp [setLocal_locals, paySum]
        intro hb1 hr0
        omega
      · simp [setLocal_locals, hax]
        exact pre a
    · intro a
      by_cases hax : a = ctx.sender
      · subst hax
        simp [setLocal_locals, paySum]
        intro hb1 hr1
        have := post ctx.sender hb1 hrev1
        omega
      · simp [setLocal_locals, hax]
        exact post a
  · rw [if_neg hrb] at hp
    subst hp
    refine ⟨?_, ?_, ?_, ?_, ?_, lead, fun hs => le_trans (sr hs) hle⟩
    · intro a
      by_cases hax : a = ctx.sender
      · subst hax
        simp [setLocal_locals]
        exact bLe ctx.sender
      · simp [setLocal_locals, hax]
        exact bLe a
    · intro a
      by_cases hax : a = ctx.sender
      · subst hax
        simp [setLocal_locals]
        exact rLe ctx.sender
      · simp [setLocal_locals, hax]
        exact rLe a
    · intro a
      by_cases hax : a = ctx.sender
      · subst hax
        simp [setLocal_locals, paySum]
        intro hb0
        have := unb ctx.sender hb0
        omega
      · simp [setLocal_locals, hax]
        exact unb a
    · intro a
      by_cases hax : a = ctx.sender
      · subst hax
        simp [setLocal_locals, paySum]
        intro hb1 hr0
        omega
      · simp [setLocal_locals, hax]
        exact pre a
    · intro a
      by_cases hax : a = ctx.sender
      · subst hax
        simp [setLocal_locals, paySum]
        intro hb1 hr1
        have := post ctx.sender hb1 hrev1
        omega
      · simp [setLocal_locals, hax]
        exact post a

/-- Every successful step of the auction state machine preserves `SysInv`. -/
theorem step_preserves {cr : Crypto} {c : Call} {ctx : TxnCtx} {s s' : Sys}
    (hle : s.lastRound ≤ ctx.round) (hstep : step cr c ctx s = .ok s')
    (hinv : SysInv s) : SysInv s' := by
  cases c with
  | create a r m b sp ce us pw opk ph =>
    simp only [step] at hstep
    cases hop : create ctx s.app a r m b sp ce us pw opk ph with
    | error e => rw [hop] at hstep; exact Except.noConfusion hstep
    | ok st2 =>
      rw [hop] at hstep
      simp only [Except.map] at hstep
      cases hstep
      exact invCreate hop hinv
  | commit h cc ak =>
    simp only [step] at hstep
    cases hop : commit ctx s.app h cc ak with
    | error e => rw [hop] at hstep; exact Except.noConfusion hstep
    | ok st2 =>
      rw [hop] at hstep
      simp only [Except.map] at hstep
      cases hstep
      exact invCommit hle hop hinv
  | revealFor cid bid salt hy att =>
    simp only [step] at hstep
    cases hop : reveal_for cr ctx s.app cid bid salt hy att with
    | error e => rw [hop] at hstep; exact Except.noConfusion hstep
    | ok p =>
      rw [hop] at hstep
      simp only [Except.map] at hstep
      cases hstep
      exact invReveal hle hop hinv
  | settle =>
    simp only [step] at hstep
    cases hop : settle ctx s.app with
    | error e => rw [hop] at hstep; exact Except.noConfusion hstep
    | ok st2 =>
      rw [hop] at hstep
      simp only [Except.map] at hstep
      cases hstep
      exact invSettle hop hinv
  | finalizeWin price =>
    simp only [step] at hstep
    cases hop : finalize_win ctx s.app price with
    | error e => rw [hop] at hstep; exact Except.noConfusion hstep
    | ok p =>
      rw [hop] at hstep
      simp only [Except.map] at hstep
      cases hstep
      exact invFinalize hle hop hinv
  | promoteNext =>
    simp only [step] at hstep
    cases hop : promote_next ctx s.app with
    | error e => rw [hop] at hstep; exact Except.noConfusion hstep
    | ok p =>
      rw [hop] at hstep
      simp only [Except.map] at hstep
      cases hstep
      exact invPromote hle hop hinv
  | claimRefund =>
    simp only [step] at hstep
    cases hop : claim_refund ctx s.app with
    | error e => rw [hop] at hstep; exact Except.noConfusion hstep
    | ok p =>
      rw [hop] at hstep
      simp only [Except.map] at hstep
      cases hstep
      exact invClaim hle hop hinv
  | setKyc addr v =>
    simp only [step] at hstep
    cases hop : set_kyc ctx s.app addr v with
    | error e => rw [hop] at hstep; exact Except.noConfusion hstep
    | ok st2 =>
      rw [hop] at hstep
      simp only [Except.map] at hstep
      cases hstep
      exact invSetKyc hle hop hinv

/-- The invariant holds in every reachable state. -/
theorem reachable_inv {cr : Crypto} {s : Sys} (h : Reachable cr s) : SysInv s := by
  induction h with
  | init => exact sysInv_init
  | next hre hle hstep ih => exact step_preserves hle hstep ih

/-! ### Concrete instantiations and an example trace

The contract is parametric in the AVM hash and signature primitives; for
concrete executions we instantiate them with simple functions (a constant
hash, an always-accepting verifier).  This is sound for the properties
below: a bidder who commits the hash of their reveal preimage and an
oracle that signs the reveal round exist in any real run, and none of the
escrow arithmetic depends on the hash values themselves. -/

def exCrypto : Crypto :=
  { sha256 := fun _ => itob 99, ed25519 := fun _ _ _ => true }

/-- Second crypto instantiation (identity hash) for mismatch scenarios. -/
def exCrypto2 : Crypto :=
  { sha256 := fun m => m, ed25519 := fun _ _ _ => true }

def sellerA : Bytes := [1]
def bidderA : Bytes := [2]
def revealerT : Bytes := [3]
def bidderB : Bytes := [4]
def attacker : Bytes := [8]
def escrowAddr : Bytes := [9]

def payTxn (amt : Nat) : GTxn0 :=
  { typeEnum := .payment, receiver := escrowAddr, amount := amt,
    xferAsset := 0, assetReceiver := [], assetAmount := 0 }

def noTxn : GTxn0 :=
  { typeEnum := .other, receiver := [], amount := 0,
    xferAsset := 0, assetReceiver := [], assetAmount := 0 }

def asaTxn (amt : Nat) : GTxn0 :=
  { typeEnum := .assetTransfer, receiver := [], amount := 0,
    xferAsset := 4, assetReceiver := escrowAddr, assetAmount := amt }

def ctxCreate : TxnCtx :=
  { sender := sellerA, groupSize := 1, gtxn0 := noTxn, round := 1,
    appId := 7, appAddr := escrowAddr }

def ctxCommit : TxnCtx :=
  { sender := bidderA, groupSize := 2, gtxn0 := payTxn 15, round := 5,
    appId := 7, appAddr := escrowAddr }

def ctxCommitB : TxnCtx :=
  { sender := bidderB, groupSize := 2, gtxn0 := payTxn 15, round := 6,
    appId := 7, appAddr := escrowAddr }

def ctxReveal : TxnCtx :=
  { sender := revealerT, groupSize := 1, gtxn0 := noTxn, round := 10,
    appId := 7, appAddr := escrowAddr }

def ctxSettle : TxnCtx :=
  { sender := revealerT, groupSize := 1, gtxn0 := noTxn, round := 20,
    appId := 7, appAddr := escrowAddr }

def ctxFin : TxnCtx :=
  { sender := bidderA, groupSize := 2, gtxn0 := asaTxn 0, round := 21,
    appId := 7, appAddr := escrowAddr }

def att64 : Bytes := List.replicate 64 0

/-- Extract the post-state of a successful step (deployment state on error). -/
def stepOk (x : Except Err Sys) : Sys :=
  match x with
  | .ok s => s
  | .error _ => initSys

/-- Example trace: `create` with bond 15 (second-price, commit end 10,
slack 10, pay window 5, min bid 1), `commit` by bidder A, third-party
`reveal_for` of bid 5 by T, `settle`, `finalize_win` at price 0. -/
def exCall1 : Call := .create 4 0 1 15 1 10 10 5 (itob 0) (itob 0)
def exCall2 : Call := .commit (itob 99) [] (itob 5)
def exCall3 : Call := .revealFor (itob 99) 5 [] [] att64
def exCall5 : Call := .finalizeWin 0

def exS1 : Sys := stepOk (step exCrypto exCall1 ctxCreate initSys)
def exS2 : Sys := stepOk (step exCrypto exCall2 ctxCommit exS1)
def exS3 : Sys := stepOk (step exCrypto exCall3 ctxReveal exS2)
def exS4 : Sys := stepOk (step exCrypto Call.settle ctxSettle exS3)
def exS5 : Sys := stepOk (step exCrypto exCall5 ctxFin exS4)

theorem exS1_reachable : Reachable exCrypto exS1 :=
  @Reachable.next exCrypto initSys exS1 exCall1 ctxCreate
    Reachable.init (by decide) rfl

theorem exS2_reachable : Reachable exCrypto exS2 :=
  @Reachable.next exCrypto exS1 exS2 exCall2 ctxCommit
    exS1_reachable (by decide) rfl

theorem exS3_reachable : Reachable exCrypto exS3 :=
  @Reachable.next exCrypto exS2 exS3 exCall3 ctxReveal
    exS2_reachable (by decide) rfl

theorem exS4_reachable : Reachable exCrypto exS4 :=
  @Reachable.next exCrypto exS3 exS4 Call.settle ctxSettle
    exS3_reachable (by decide) rfl

theorem exS5_reachable : Reachable exCrypto exS5 :=
  @Reachable.next exCrypto exS4 exS5 exCall5 ctxFin
    exS4_reachable (by decide) rfl

/-! ### Claim C1 -/

/-- The specification's bond-conservation claim, as stated: in every
reachable state, every bonded bidder's `remaining_bond` plus the amounts
already paid out on that bidder's behalf equals the bond recorded at the
bidder's commit. -/
def C1Claim : Prop :=
  ∀ (cr : Crypto) (s : Sys), Reachable cr s →
    ∀ a, (s.app.locals a).bonded = 1 →
      (s.app.locals a).remainingBond + s.paidFor a = s.bondOf a

/-- C1 counterexample: bond conservation fails on the example trace with
bond 15 — after the third-party reveal the bidder holds
`15*30/100 = 4`, the revealer was paid `15*70/100 = 10`, and
`4 + 10 = 14 ≠ 15`: one unit of the bond is lost to integer rounding. -/
theorem C1_counterexample :
    ¬ C1Claim ∧
    (exS3.app.locals bidderA).remainingBond = 4 ∧
    exS3.paidFor bidderA = 10 ∧
    exS3.bondOf bidderA = 15 := by
  refine ⟨?_, by decide, by decide, by decide⟩
  intro hcl
  have h := hcl exCrypto exS3 exS3_reachable bidderA (by decide)
  revert h
  decide

/-- C1 amended: in every reachable state, a bonded bidder's
`remaining_bond` plus the amounts paid out on the bidder's behalf never
exceeds the bond recorded at commit, and falls short of it by at most one
unit (the 70/30 bounty split may round one unit away). -/
theorem C1_bond_conservation :
    ∀ (cr : Crypto) (s : Sys), Reachable cr s →
      ∀ a, (s.app.locals a).bonded = 1 →
        s.bondOf a ≤ (s.app.locals a).remainingBond + s.paidFor a + 1 ∧
        (s.app.locals a).remainingBond + s.paidFor a ≤ s.bondOf a := by
  intro cr s hre a hb
  obtain ⟨bLe, rLe, unb, pre, post, lead, sr⟩ := reachable_inv hre
  have hrle := rLe a
  by_cases h0 : (s.app.locals a).revealed = 0
  · have := pre a hb h0
    omega
  · have h1 : (s.app.locals a).revealed = 1 := by omega
    have := post a hb h1
    omega

/-- C1 amended witness: at the reachable state after bidder A's commit the
amended bounds hold for A. -/
theorem C1_bond_conservation_witness :
    (exS2.app.locals bidderA).bonded = 1 ∧
    (exS2.bondOf bidderA ≤
       (exS2.app.locals bidderA).remainingBond + exS2.paidFor bidderA + 1 ∧
     (exS2.app.locals bidderA).remainingBond + exS2.paidFor bidderA ≤
       exS2.bondOf bidderA) :=
  ⟨by decide, C1_bond_conservation exCrypto exS2 exS2_reachable bidderA (by decide)⟩

/-! ### Claim C6 -/

/-- C6: in every reachable state of the auction — in particular after every
successful `reveal_for` and every successful `promote_next` — the
leaderboard satisfies `win_bid ≥ second_bid`. -/
theorem C6_win_ge_second :
    ∀ (cr : Crypto) (s : Sys), Reachable cr s →
      s.app.global.secondBid ≤ s.app.global.winBid :=
  fun _ _ hre => (reachable_inv hre).lead

/-- C6 witness: the invariant holds at the reachable state right after the
example reveal. -/
theorem C6_win_ge_second_witness :
    exS3.app.global.secondBid ≤ exS3.app.global.winBid :=
  C6_win_ge_second exCrypto exS3 exS3_reachable

/-! ### Claim C2 -/

/-- The specification's third-party bounty claim, as stated: a successful
third-party reveal pays the caller exactly `floor(remaining*70/100)`, sets
the bidder's `remaining_bond` to `floor(remaining*30/100)`, and the
rounding residual is retained by the bidder rather than lost — i.e. what
the bidder keeps plus what the caller was paid adds back up to the
original `remaining_bond`. -/
def C2Claim : Prop :=
  ∀ (cr : Crypto) (ctx : TxnCtx) (st : AppState) (cid : Bytes) (bid : Nat)
    (salt hy att : Bytes) (st' : AppState) (ts : List Transfer) (bidder : Bytes),
    st.boxes cid = some bidder →
    reveal_for cr ctx st cid bid salt hy att = .ok (st', ts) →
    ctx.sender ≠ bidder →
    ts = [Transfer.pay ctx.sender ((st.locals bidder).remainingBond * 70 / 100)] ∧
    (st'.locals bidder).remainingBond
      = (st.locals bidder).remainingBond * 30 / 100 ∧
    (st'.locals bidder).remainingBond + paySum ts
      = (st.locals bidder).remainingBond

/-- C2 counterexample: at `remaining_bond = 15` the third-party reveal pays
10 and keeps 4 for the bidder, and `4 + 10 = 14 ≠ 15` — the rounding
residual is lost from the bidder's balance, not retained. -/
theorem C2_counterexample :
    ¬ C2Claim ∧
    reveal_for exCrypto ctxReveal exS2.app (itob 99) 5 [] [] att64
      = .ok (exS3.app, [Transfer.pay revealerT 10]) ∧
    (exS2.app.locals bidderA).remainingBond = 15 ∧
    (exS3.app.locals bidderA).remainingBond = 4 := by
  refine ⟨?_, rfl, by decide, by decide⟩
  intro hcl
  have h := hcl exCrypto ctxReveal exS2.app (itob 99) 5 [] [] att64
    exS3.app [Transfer.pay revealerT 10] bidderA (by decide) rfl (by decide)
  have h3 := h.2.2
  revert h3
  decide

/-- C2 amended: a successful third-party reveal pays the caller exactly
`floor(remaining*70/100)` and sets the bidder's `remaining_bond` to
`floor(remaining*30/100)`; the two parts never exceed the original
`remaining_bond` and fall short of it by at most one unit, which is
forfeited to the escrow (neither paid to the caller nor retained by the
bidder). -/
theorem C2_bounty_split :
    ∀ (cr : Crypto) (ctx : TxnCtx) (st : AppState) (cid : Bytes) (bid : Nat)
      (salt hy att : Bytes) (st' : AppState) (ts : List Transfer) (bidder : Bytes),
    st.boxes cid = some bidder →
    reveal_for cr ctx st cid bid salt hy att = .ok (st', ts) →
    ctx.sender ≠ bidder →
    ts = [Transfer.pay ctx.sender ((st.locals bidder).remainingBond * 70 / 100)] ∧
    (st'.locals bidder).remainingBond
      = (st.locals bidder).remainingBond * 30 / 100 ∧
    (st'.locals bidder).remainingBond + paySum ts
      ≤ (st.locals bidder).remainingBond ∧
    (st.locals bidder).remainingBond
      ≤ (st'.locals bidder).remainingBond + paySum ts + 1 := by
  intro cr ctx st cid bid salt hy att st' ts bidder hbox hok hne
  obtain ⟨h1, h2, h3, h4, b', hb', hsha, hrev, hmin, hp⟩ := reveal_for_ok hok
  rw [hbox] at hb'
  cases hb'
  have hst : st' = (revealEffect ctx st bidder bid).1 := congrArg Prod.fst hp
  have hts : ts = (revealEffect ctx st bidder bid).2 := congrArg Prod.snd hp
  subst hst
  subst hts
  rw [revealEffect_snd_third _ _ _ _ hne, revealEffect_locals_third _ _ _ _ hne]
  refine ⟨rfl, rfl, ?_, ?_⟩ <;>
  · simp [paySum]
    have := bounty_split_bounds (st.locals bidder).remainingBond
    omega

/-- C2 amended witness: the amended conclusion evaluated on the example
third-party reveal (bond 15, payout 10, kept 4). -/
theorem C2_bounty_split_witness :
    [Transfer.pay revealerT 10]
      = [Transfer.pay ctxReveal.sender
           ((exS2.app.locals bidderA).remainingBond * 70 / 100)] ∧
    (exS3.app.locals bidderA).remainingBond
      = (exS2.app.locals bidderA).remainingBond * 30 / 100 ∧
    (exS3.app.locals bidderA).remainingBond
        + paySum [Transfer.pay revealerT 10]
      ≤ (exS2.app.locals bidderA).remainingBond ∧
    (exS2.app.locals bidderA).remainingBond
      ≤ (exS3.app.locals bidderA).remainingBond
          + paySum [Transfer.pay revealerT 10] + 1 :=
  C2_bounty_split exCrypto ctxReveal exS2.app (itob 99) 5 [] [] att64
    exS3.app [Transfer.pay revealerT 10] bidderA (by decide) rfl (by decide)

/-! ### Claim C3 -/

/-- The specification's duplicate-commitment claim, as stated: a `commit`
whose hash is already present in the commitment index fails with
`DuplicateCommitment`. -/
def C3Claim : Prop :=
  ∀ (ctx : TxnCtx) (st : AppState) (h cCid anonKey : Bytes),
    st.boxes h ≠ none →
    commit ctx st h cCid anonKey = .error .duplicateCommitment

/-- Post-state of a successful `commit` (identity on failure). -/
def commitRes (ctx : TxnCtx) (st : AppState) (h cCid anonKey : Bytes) : AppState :=
  match commit ctx st h cCid anonKey with
  | .ok st' => st'
  | .error _ => st

/-- C3 counterexample: bidder B commits the very hash already registered by
bidder A; the call succeeds (the contract uses overwriting `box_put`, not a
create-only insert) and the index entry now maps the hash to B. -/
theorem C3_counterexample :
    ¬ C3Claim ∧
    exS2.app.boxes (itob 99) = some bidderA ∧
    commit ctxCommitB exS2.app (itob 99) [] (itob 6)
      = .ok (commitRes ctxCommitB exS2.app (itob 99) [] (itob 6)) ∧
    (commitRes ctxCommitB exS2.app (itob 99) [] (itob 6)).boxes (itob 99)
      = some bidderB := by
  refine ⟨?_, by decide, rfl, by decide⟩
  intro hcl
  have h := hcl ctxCommitB exS2.app (itob 99) [] (itob 6) (by decide)
  have hok : commit ctxCommitB exS2.app (itob 99) [] (itob 6)
      = .ok (commitRes ctxCommitB exS2.app (itob 99) [] (itob 6)) := rfl
  rw [h] at hok
  exact Except.noConfusion hok

/-- C3 amended: `commit` performs no duplicate check on the commitment
index at all — whenever the phase, group-payment and one-commit-per-account
guards hold it succeeds, even if the hash is already present, and the
hash-to-bidder mapping is overwritten with the new caller. -/
theorem C3_commit_overwrites (ctx : TxnCtx) (st : AppState)
    (h cCid anonKey : Bytes)
    (hph : ctx.round < st.global.commitEnd) (hg : ctx.groupSize = 2)
    (ht : ctx.gtxn0.typeEnum = TxnTypeE.payment)
    (hrc : ctx.gtxn0.receiver = ctx.appAddr)
    (ha : ctx.gtxn0.amount = st.global.bond)
    (hb : (st.locals ctx.sender).bonded = 0) :
    commit ctx st h cCid anonKey = .ok (commitRes ctx st h cCid anonKey) ∧
    (commitRes ctx st h cCid anonKey).boxes h = some ctx.sender := by
  unfold commitRes
  unfold commit
  rw [if_pos hph, if_pos hg, if_pos ht, if_pos hrc, if_pos ha, if_pos hb]
  exact ⟨rfl, by simp⟩

/-- C3 amended witness: the amended conclusion evaluated on bidder B's
duplicate-hash commit over A's entry. -/
theorem C3_commit_overwrites_witness :
    exS2.app.boxes (itob 99) ≠ none ∧
    (commit ctxCommitB exS2.app (itob 99) [] (itob 6)
       = .ok (commitRes ctxCommitB exS2.app (itob 99) [] (itob 6)) ∧
     (commitRes ctxCommitB exS2.app (itob 99) [] (itob 6)).boxes (itob 99)
       = some ctxCommitB.sender) :=
  ⟨by decide,
   C3_commit_overwrites ctxCommitB exS2.app (itob 99) [] (itob 6)
     (by decide) (by decide) (by decide) (by decide) (by decide) (by decide)⟩

/-! ### Claim C4 -/

def ctxCreate2 : TxnCtx :=
  { sender := attacker, groupSize := 1, gtxn0 := noTxn, round := 5,
    appId := 7, appAddr := escrowAddr }

/-- Post-state of the second `create` call on the already-initialized
instance. -/
def reCreateRes : AppState :=
  match create ctxCreate2 exS1.app 4 0 1 15 1 100 10 5 (itob 0) (itob 0) with
  | .ok st => st
  | .error _ => initApp

/-- C4 evaluation at the failing input: the instance is already initialized
(seller A), yet a second `create` by a different account succeeds — the
contract has no initialization or creator guard — and overwrites the
seller (and the whole leaderboard/settled state). -/
theorem C4_reinit_bug :
    exS1.app.global.seller = sellerA ∧
    create ctxCreate2 exS1.app 4 0 1 15 1 100 10 5 (itob 0) (itob 0)
      = .ok reCreateRes ∧
    reCreateRes.global.seller = attacker ∧
    attacker ≠ sellerA :=
  ⟨by decide, rfl, by decide, by decide⟩

/-! ### Claim C5 -/

/-- The two `If`-chains of `finalize_win` compute a maximum with the
reserve. -/
theorem expectedPrice_eq_max (g : GlobalState) :
    expectedPrice g = (if g.secondPrice = 1 then max g.secondBid g.reserve
                       else max g.winBid g.reserve) := by
  unfold expectedPrice
  split_ifs <;> omega

/-- C5: a successful `finalize_win(price)` forces `price` to equal
`max(second_bid, reserve)` under the second-price rule and
`max(win_bid, reserve)` otherwise; a call satisfying every other
precondition but supplying a different price fails with `PriceMismatch`
(and, the embedding returning an error, makes no state change). -/
theorem C5_finalize_price (ctx : TxnCtx) (st : AppState) (price : Nat) :
    (∀ p, finalize_win ctx st price = .ok p →
       price = (if st.global.secondPrice = 1
                then max st.global.secondBid st.global.reserve
                else max st.global.winBid st.global.reserve)) ∧
    (st.global.settled = 1 → ctx.sender = st.global.winner →
     ctx.round ≤ st.global.settleRound + st.global.payWindow →
     ctx.groupSize = 2 → ctx.gtxn0.typeEnum = TxnTypeE.assetTransfer →
     ctx.gtxn0.xferAsset = st.global.asaQuote →
     ctx.gtxn0.assetReceiver = ctx.appAddr → ctx.gtxn0.assetAmount = price →
     price ≠ (if st.global.secondPrice = 1
              then max st.global.secondBid st.global.reserve
              else max st.global.winBid st.global.reserve) →
     finalize_win ctx st price = .error .priceMismatch) := by
  constructor
  · intro p hok
    have h := (finalize_win_ok hok).2.2.2.1
    rw [expectedPrice_eq_max] at h
    exact h
  · intro h1 h2 h3 h4 h5 h6 h7 h8 hne
    unfold finalize_win
    rw [if_pos h1, if_pos h2, if_pos h3, if_pos h4, if_pos h5, if_pos h6,
        if_pos h7, if_pos h8,
        if_neg (by rw [expectedPrice_eq_max]; exact hne)]

def stF : AppState :=
  { global := { initGlobal with
                asaQuote := 4, reserve := 3, secondPrice := 1,
                winner := bidderA, winBid := 12, secondBid := 10,
                settled := 1, settleRound := 20, payWindow := 5 },
    locals := fun _ => initLocal, boxes := fun _ => none }

def ctxF7 : TxnCtx :=
  { sender := bidderA, groupSize := 2, gtxn0 := asaTxn 7, round := 22,
    appId := 7, appAddr := escrowAddr }

def ctxF10 : TxnCtx :=
  { sender := bidderA, groupSize := 2, gtxn0 := asaTxn 10, round := 22,
    appId := 7, appAddr := escrowAddr }

/-- Result of the correctly priced finalize on `stF`. -/
def finRes : AppState × List Transfer :=
  match finalize_win ctxF10 stF 10 with
  | .ok p => p
  | .error _ => (initApp, [])

/-- C5 witness: on a settled second-price state with `second_bid = 10`,
`reserve = 3`, paying 7 is rejected with `PriceMismatch` while the
successful call's price 10 matches `max(second_bid, reserve)`. -/
theorem C5_finalize_price_witness :
    finalize_win ctxF7 stF 7 = .error .priceMismatch ∧
    (10 : Nat) = (if stF.global.secondPrice = 1
                  then max stF.global.secondBid stF.global.reserve
                  else max stF.global.winBid stF.global.reserve) :=
  ⟨(C5_finalize_price ctxF7 stF 7).2 (by decide) (by decide) (by decide)
     (by decide) (by decide) (by decide) (by decide) (by decide) (by decide),
   (C5_finalize_price ctxF10 stF 10).1 finRes rfl⟩

/-! ### Claim C7 -/

/-- C7: a reveal succeeds only if the SHA-256 of the big-endian 8-byte bid,
the salt, the bidder's stored privacy key and the big-endian 8-byte
application id equals the bidder's stored commitment hash; with every
earlier precondition satisfied, any inequality fails with
`CommitmentMismatch`. -/
theorem C7_commitment_check (cr : Crypto) (ctx : TxnCtx) (st : AppState)
    (cid : Bytes) (bid : Nat) (salt hy att : Bytes) (bidder : Bytes)
    (hbox : st.boxes cid = some bidder) :
    (∀ p, reveal_for cr ctx st cid bid salt hy att = .ok p →
       cr.sha256 (itob bid ++ salt ++ (st.locals bidder).anonKey ++ itob ctx.appId)
         = (st.locals bidder).commit) ∧
    (st.global.commitEnd ≤ ctx.round →
     ctx.round < st.global.commitEnd + st.global.unlockSlack →
     att.length = 64 →
     cr.ed25519 (oracleMsg ctx st hy) att st.global.oraclePk = true →
     cr.sha256 (itob bid ++ salt ++ (st.locals bidder).anonKey ++ itob ctx.appId)
       ≠ (st.locals bidder).commit →
     reveal_for cr ctx st cid bid salt hy att = .error .commitmentMismatch) := by
  constructor
  · intro p hok
    obtain ⟨h1, h2, h3, h4, b', hb', hsha, hrev, hmin, hp⟩ := reveal_for_ok hok
    rw [hbox] at hb'
    cases hb'
    exact hsha
  · intro h1 h2 h3 h4 hne
    unfold reveal_for
    rw [if_pos h1, if_pos h2, if_pos h3, if_pos h4]
    simp only [hbox]
    rw [if_neg hne]

/-- Result of the matching reveal used by the C7 witness. -/
def revRes : AppState × List Transfer :=
  match reveal_for exCrypto ctxReveal exS2.app (itob 99) 5 [] [] att64 with
  | .ok p => p
  | .error _ => (initApp, [])

/-- C7 witness: on the example commitment the matching preimage hash makes
the reveal succeed; with an identity hash function the recomputed value
differs from the stored commitment and the reveal fails with
`CommitmentMismatch`. -/
theorem C7_commitment_check_witness :
    exCrypto.sha256 (itob 5 ++ [] ++ (exS2.app.locals bidderA).anonKey
        ++ itob ctxReveal.appId)
      = (exS2.app.locals bidderA).commit ∧
    reveal_for exCrypto2 ctxReveal exS2.app (itob 99) 5 [] [] att64
      = .error .commitmentMismatch :=
  ⟨(C7_commitment_check exCrypto ctxReveal exS2.app (itob 99) 5 [] [] att64
      bidderA (by decide)).1 revRes rfl,
   (C7_commitment_check exCrypto2 ctxReveal exS2.app (itob 99) 5 [] [] att64
      bidderA (by decide)).2 (by decide) (by decide) (by decide) (by decide)
      (by decide)⟩

/-! ### Claim C8 -/

/-- The specification's reveal boundary claim, as stated: at
`clock = commit_end` the phase guard admits the call, and at
`clock = commit_end + unlock_slack` the call fails with `PhaseViolation`. -/
def C8Claim : Prop :=
  ∀ (cr : Crypto) (ctx : TxnCtx) (st : AppState) (cid : Bytes) (bid : Nat)
    (salt hy att : Bytes),
    (ctx.round = st.global.commitEnd →
      reveal_for cr ctx st cid bid salt hy att ≠ .error .phaseViolation) ∧
    (ctx.round = st.global.commitEnd + st.global.unlockSlack →
      reveal_for cr ctx st cid bid salt hy att = .error .phaseViolation)

/-- Auction state with `unlock_slack = 0` (allowed by `create`). -/
def stSlack0 : AppState :=
  { global := { initGlobal with commitEnd := 10, unlockSlack := 0 },
    locals := fun _ => initLocal, boxes := fun _ => none }

/-- C8 counterexample: with `unlock_slack = 0` a reveal at
`clock = commit_end` is rejected with `PhaseViolation` (the instant also
equals `commit_end + unlock_slack`), contradicting the claim's first
half. -/
theorem C8_counterexample :
    ¬ C8Claim ∧
    ctxReveal.round = stSlack0.global.commitEnd ∧
    reveal_for exCrypto ctxReveal stSlack0 (itob 99) 5 [] [] att64
      = .error .phaseViolation := by
  refine ⟨?_, by decide, rfl⟩
  intro hcl
  exact (hcl exCrypto ctxReveal stSlack0 (itob 99) 5 [] [] att64).1
    (by decide) rfl

/-- C8 amended: provided `unlock_slack > 0`, a reveal at
`clock = commit_end` passes the phase guard (it can never fail with
`PhaseViolation`); a reveal at `clock = commit_end + unlock_slack` always
fails with `PhaseViolation`. -/
theorem C8_reveal_boundary (cr : Crypto) (ctx : TxnCtx) (st : AppState)
    (cid : Bytes) (bid : Nat) (salt hy att : Bytes) :
    (0 < st.global.unlockSlack → ctx.round = st.global.commitEnd →
       reveal_for cr ctx st cid bid salt hy att ≠ .error .phaseViolation) ∧
    (ctx.round = st.global.commitEnd + st.global.unlockSlack →
       reveal_for cr ctx st cid bid salt hy att = .error .phaseViolation) := by
  constructor
  · intro hs hr hcontra
    unfold reveal_for at hcontra
    rw [hr, if_pos (Nat.le_refl _), if_pos (by omega)] at hcontra
    cases hbox : st.boxes cid with
    | none =>
      simp only [hbox] at hcontra
      split_ifs at hcontra <;> simp at hcontra
    | some b =>
      simp only [hbox] at hcontra
      split_ifs at hcontra <;> simp at hcontra
  · intro hr
    unfold reveal_for
    rw [hr, if_pos (Nat.le_add_right _ _), if_neg (lt_irrefl _)]

/-- Auction state with `unlock_slack = 1`. -/
def stSlack1 : AppState :=
  { global := { initGlobal with commitEnd := 10, unlockSlack := 1 },
    locals := fun _ => initLocal, boxes := fun _ => none }

def ctxRev11 : TxnCtx :=
  { sender := revealerT, groupSize := 1, gtxn0 := noTxn, round := 11,
    appId := 7, appAddr := escrowAddr }

/-- C8 amended witness: with `unlock_slack = 1`, the round-10 reveal is not
a `PhaseViolation` and the round-11 reveal (`commit_end + unlock_slack`)
is. -/
theorem C8_reveal_boundary_witness :
    (reveal_for exCrypto ctxReveal stSlack1 (itob 99) 5 [] [] att64
       ≠ .error .phaseViolation) ∧
    reveal_for exCrypto ctxRev11 stSlack1 (itob 99) 5 [] [] att64
      = .error .phaseViolation :=
  ⟨(C8_reveal_boundary exCrypto ctxReveal stSlack1 (itob 99) 5 [] [] att64).1
     (by decide) (by decide),
   (C8_reveal_boundary exCrypto ctxRev11 stSlack1 (itob 99) 5 [] [] att64).2
     (by decide)⟩

/-! ### Claim C9 -/

/-- No call other than `create` ever clears the `settled` flag. -/
theorem step_settled_mono {cr : Crypto} {c : Call} {ctx : TxnCtx} {s s' : Sys}
    (hc : c.isCreate = false) (hstep : step cr c ctx s = .ok s')
    (hs1 : s.app.global.settled = 1) : s'.app.global.settled = 1 := by
  cases c with
  | create a r m b sp ce us pw opk ph => simp [Call.isCreate] at hc
  | commit h cc ak =>
    simp only [step] at hstep
    cases hop : commit ctx s.app h cc ak with
    | error e => rw [hop] at hstep; exact Except.noConfusion hstep
    | ok st2 =>
      rw [hop] at hstep
      simp only [Except.map] at hstep
      cases hstep
      obtain ⟨-, -, -, -, -, -, hst2⟩ := commit_ok_iff.mp hop
      subst hst2
      exact hs1
  | revealFor cid bid salt hy att =>
    simp only [step] at hstep
    cases hop : reveal_for cr ctx s.app cid bid salt hy att with
    | error e => rw [hop] at hstep; exact Except.noConfusion hstep
    | ok p =>
      rw [hop] at hstep
      simp only [Except.map] at hstep
      cases hstep
      obtain ⟨-, -, -, -, bidder, hbox, -, -, -, hp⟩ := reveal_for_ok hop
      show p.1.global.settled = 1
      rw [hp, revealEffect_global, leaderboardUpdate_settled, setLocal_global]
      exact hs1
  | settle =>
    simp only [step] at hstep
    cases hop : settle ctx s.app with
    | error e => rw [hop] at hstep; exact Except.noConfusion hstep
    | ok st2 =>
      obtain ⟨-, hs0, -⟩ := settle_ok_iff.mp hop
      exact absurd hs1 (by omega)
  | finalizeWin price =>
    simp only [step] at hstep
    cases hop : finalize_win ctx s.app price with
    | error e => rw [hop] at hstep; exact Except.noConfusion hstep
    | ok p =>
      rw [hop] at hstep
      simp only [Except.map] at hstep
      cases hstep
      obtain ⟨-, -, -, -, hp⟩ := finalize_win_ok hop
      show p.1.global.settled = 1
      rw [hp]
      split_ifs <;> exact hs1
  | promoteNext =>
    simp only [step] at hstep
    cases hop : promote_next ctx s.app with
    | error e => rw [hop] at hstep; exact Except.noConfusion hstep
    | ok p =>
      rw [hop] at hstep
      simp only [Except.map] at hstep
      cases hstep
      obtain ⟨-, -, -, hp⟩ := promote_next_ok hop
      show p.1.global.settled = 1
      rw [hp]
      split_ifs <;> exact hs1
  | claimRefund =>
    simp only [step] at hstep
    cases hop : claim_refund ctx s.app with
    | error e => rw [hop] at hstep; exact Except.noConfusion hstep
    | ok p =>
      rw [hop] at hstep
      simp only [Except.map] at hstep
      cases hstep
      obtain ⟨-, -, -, -, hp⟩ := claim_refund_ok hop
      show p.1.global.settled = 1
      rw [hp]
      split_ifs <;> exact hs1
  | setKyc addr v =>
    simp only [step] at hstep
    cases hop : set_kyc ctx s.app addr v with
    | error e => rw [hop] at hstep; exact Except.noConfusion hstep
    | ok st2 =>
      rw [hop] at hstep
      simp only [Except.map] at hstep
      cases hstep
      obtain ⟨-, -, hst2⟩ := set_kyc_ok hop
      subst hst2
      exact hs1

/-- C9: once the reveal window has closed and `settled = 0`, `settle`
succeeds and unconditionally records `settled = 1`,
`settle_round = clock` — for every state, hence regardless of whether a
winner exists or the winning bid meets the reserve; on any reachable state
already settled, a later `settle` call fails with `AlreadySettled`; and no
call other than `create` ever resets `settled`, so within one auction the
flag flips false-to-true exactly once. -/
theorem C9_settle_once (cr : Crypto) :
    (∀ (ctx : TxnCtx) (st : AppState),
       st.global.commitEnd + st.global.unlockSlack ≤ ctx.round →
       st.global.settled = 0 →
       settle ctx st = .ok { st with global :=
         { st.global with settled := 1, settleRound := ctx.round } }) ∧
    (∀ (ctx : TxnCtx) (s : Sys), Reachable cr s → s.lastRound ≤ ctx.round →
       s.app.global.settled = 1 → settle ctx s.app = .error .alreadySettled) ∧
    (∀ (c : Call) (ctx : TxnCtx) (s s' : Sys), c.isCreate = false →
       step cr c ctx s = .ok s' → s.app.global.settled = 1 →
       s'.app.global.settled = 1) := by
  refine ⟨?_, ?_, fun c ctx s s' hc hstep hs1 => step_settled_mono hc hstep hs1⟩
  · intro ctx st h1 h2
    exact settle_ok_iff.mpr ⟨h1, h2, rfl⟩
  · intro ctx s hre hle hs1
    have hsr := (reachable_inv hre).settledRound hs1
    unfold settle
    rw [if_pos (le_trans hsr hle), if_neg (by omega)]

/-- C9 witness: on the example trace, `settle` at round 20 succeeds with
the stamped settle round, a second `settle` attempt at round 21 fails with
`AlreadySettled`, and the flag survives the subsequent `finalize_win`. -/
theorem C9_settle_once_witness :
    settle ctxSettle exS3.app = .ok { exS3.app with global :=
      { exS3.app.global with settled := 1, settleRound := ctxSettle.round } } ∧
    settle ctxFin exS4.app = .error .alreadySettled ∧
    exS5.app.global.settled = 1 :=
  ⟨(C9_settle_once exCrypto).1 ctxSettle exS3.app (by decide) (by decide),
   (C9_settle_once exCrypto).2.1 ctxFin exS4 exS4_reachable (by decide)
     (by decide),
   (C9_settle_once exCrypto).2.2 exCall5 ctxFin exS4 exS5 (by decide) rfl
     (by decide)⟩

/-! ### Claim C10 -/

/-- C10: a bare application call with on-complete `update_application` or
`delete_application` on the deployed (non-create) contract is approved for
every caller and every state — there is no seller check on the bare path;
the `Txn.sender() == SELLER` guard exists only in the ABI `update` and
`delete` methods. -/
theorem C10_upgrade_auth :
    (∀ (ctx : TxnCtx) (st : AppState),
       bareCall false OnCompleteE.updateApplication ctx st = true ∧
       bareCall false OnCompleteE.deleteApplication ctx st = true) ∧
    (∀ (ctx : TxnCtx) (st : AppState), ctx.sender ≠ st.global.seller →
       update ctx st = .error .notSeller ∧ delete ctx st = .error .notSeller) ∧
    (∀ (ctx : TxnCtx) (st : AppState), ctx.sender = st.global.seller →
       update ctx st = .ok () ∧ delete ctx st = .ok ()) := by
  refine ⟨fun ctx st => ⟨rfl, rfl⟩, ?_, ?_⟩
  · intro ctx st hne
    unfold update delete
    rw [if_neg hne]
    exact ⟨rfl, rfl⟩
  · intro ctx st heq
    unfold update delete
    rw [if_pos heq]
    exact ⟨rfl, rfl⟩

/-- C10 witness: the attacker's bare update call is approved while the
attacker's ABI `update` call is rejected and the seller's is approved. -/
theorem C10_upgrade_auth_witness :
    bareCall false OnCompleteE.updateApplication ctxCreate2 exS1.app = true ∧
    update ctxCreate2 exS1.app = .error .notSeller ∧
    update ctxCreate exS1.app = .ok () :=
  ⟨(C10_upgrade_auth.1 ctxCreate2 exS1.app).1,
   (C10_upgrade_auth.2.1 ctxCreate2 exS1.app (by decide)).1,
   (C10_upgrade_auth.2.2 ctxCreate exS1.app (by decide)).1⟩
